import Mathlib

/-!
Verification of the yamlenums code generator.

The repository is a command-line generator: given an integer-backed type `T`
whose constants are declared in a Go package, it emits a Go file with
`MarshalYAML`/`UnmarshalYAML` methods translating between values of `T` and
their constant names.  `src/yamlenums.go` holds the driver (`main`); the
`parser` package (`ParsePackage`, `ValuesOfType`) and the output template
(`generatedTmpl`) live outside the provided sources and are modelled from the
specification and from the package documentation inside `src/yamlenums.go`.
-/

namespace Yamlenums

/-! ### Analyzer model (the `parser` package is not among the provided sources) -/

/-- Modelled from the spec: the constant-expression sublanguage of §4.1 step 2 /
§9 — integer literals, the auto-incrementing group-position marker (`iota`),
references to previously resolved constants, and arithmetic/bitwise
combinations.  The `parser` package implementing this is not among the
provided sources. -/
inductive Expr where
  | lit (n : Int)
  | iotaE
  | ref (name : String)
  | add (a b : Expr)
  | sub (a b : Expr)
  | mul (a b : Expr)
  | shiftl (a : Expr) (k : Nat)
  deriving Repr, DecidableEq

/-- Modelled from the spec: evaluate a constant expression given the zero-based
group-position counter `i` and the environment of constants already resolved in
the same pass; an unresolved reference is an `UnsupportedExpressionError`. -/
def evalExpr (env : List (String × Int)) (i : Nat) : Expr → Except String Int
  | .lit n => .ok n
  | .iotaE => .ok (Int.ofNat i)
  | .ref n =>
    match env.lookup n with
    | some v => .ok v
    | none => .error ("unsupported expression: " ++ n)
  | .add a b =>
    match evalExpr env i a, evalExpr env i b with
    | .ok x, .ok y => .ok (x + y)
    | .error e, _ => .error e
    | _, .error e => .error e
  | .sub a b =>
    match evalExpr env i a, evalExpr env i b with
    | .ok x, .ok y => .ok (x - y)
    | .error e, _ => .error e
    | _, .error e => .error e
  | .mul a b =>
    match evalExpr env i a, evalExpr env i b with
    | .ok x, .ok y => .ok (x * y)
    | .error e, _ => .error e
    | _, .error e => .error e
  | .shiftl a k =>
    match evalExpr env i a with
    | .ok x => .ok (x * (2 ^ k : Nat))
    | .error e => .error e

/-- Modelled from the spec: one entry of a constant group — a name, an optional
explicit declared type, and its value expression (an entry whose expression is
elided in the concrete syntax repeats the previous expression, represented here
already expanded). -/
structure ConstEntry where
  name : String
  typ : Option String
  expr : Expr
  deriving Repr, DecidableEq

/-- Modelled from the spec (§4.1 steps 1-2): resolve a constant group.  The
counter `i` increments per entry regardless of type; an entry without an
explicit type inherits the type of the nearest preceding typed sibling; each
resolved constant joins the environment for later references. -/
def resolveGroupAux : List ConstEntry → Nat → Option String → List (String × Int) →
    Except String (List (String × Option String × Int))
  | [], _, _, _ => .ok []
  | e :: rest, i, inh, env =>
    let t := match e.typ with
      | some t => some t
      | none => inh
    match evalExpr env i e.expr with
    | .error msg => .error msg
    | .ok v =>
      match resolveGroupAux rest (i + 1) t ((e.name, v) :: env) with
      | .error msg => .error msg
      | .ok tail => .ok ((e.name, t, v) :: tail)

/-- Modelled from the spec: resolve every group of the package and keep, in
declaration order, the (name, value) pairs whose effective type is `typeName`;
an empty result is a `TypeNotFoundError`. -/
def resolvedOfType (groups : List (List ConstEntry)) (typeName : String) :
    Except String (List (String × Int)) :=
  match groups with
  | [] => .ok []
  | g :: gs =>
    match resolveGroupAux g 0 none [], resolvedOfType gs typeName with
    | .ok rg, .ok rs =>
      .ok (((rg.filter (fun p => p.2.1 = some typeName)).map
        (fun p => (p.1, p.2.2))) ++ rs)
    | .error e, _ => .error e
    | _, .error e => .error e

/-- The names of all resolved constants sharing the value `v`, in declaration
order. -/
def namesForValue (l : List (String × Int)) (v : Int) : List String :=
  (l.filter (fun p => p.2 = v)).map Prod.fst

/-- Lexicographic (bytewise, as in Go) comparison of character lists. -/
def lexLe : List Char → List Char → Bool
  | [], _ => true
  | _ :: _, [] => false
  | x :: xs, y :: ys =>
    if x.toNat < y.toNat then true
    else if y.toNat < x.toNat then false
    else lexLe xs ys

/-- Lexicographic comparison of name strings. -/
def strLe (a b : String) : Bool :=
  lexLe a.data b.data

def strMin (a b : String) : String :=
  if strLe a b then a else b

/-- The lexicographically smallest element of a list of names (the rule the
spec states for canonical-name selection). -/
def minName (ns : List String) : Option String :=
  ns.foldr (fun a m => some (match m with | none => a | some b => strMin a b)) none

/-- The distinct values of the resolved list in order of first appearance. -/
def firstValuesAux : List (String × Int) → List Int → List Int
  | [], _ => []
  | p :: rest, seen =>
    if p.2 ∈ seen then firstValuesAux rest seen
    else p.2 :: firstValuesAux rest (p.2 :: seen)

def firstValues (l : List (String × Int)) : List Int :=
  firstValuesAux l []

/-- The canonical name for value `v`: the first-declared name among the
entries sharing `v`.  Modelled from the spec's concrete scenario (§8) and the
package documentation in src/yamlenums.go lines 61-62 ("If multiple constants
have the same value, the lexically first matching name will be used (in the
example, Acetaminophen will print as \x22Paracetamol\x22)"): the documented
outcome for the Pill example fixes the tie-break to the first-declared name. -/
def canonName (l : List (String × Int)) (v : Int) : Option String :=
  (l.find? (fun p => p.2 = v)).map Prod.fst

/-- Modelled from the spec (§3 ValueTable): the mapping from each distinct
value, in order of first appearance, to its canonical name. -/
def valueTable (l : List (String × Int)) : List (Int × String) :=
  (firstValues l).map (fun v => (v, (canonName l v).getD ""))

/-- Modelled from the spec: `ValuesOfType` — resolve the package's constant
groups, fail with `TypeNotFoundError` when no entry has the requested type,
and hand the driver the canonical names in first-appearance order (the caller
in src/yamlenums.go stores a plain list of name strings per type). -/
def valuesOfTypeModel (groups : List (List ConstEntry)) (typeName : String) :
    Except String (List String) :=
  match resolvedOfType groups typeName with
  | .error e => .error e
  | .ok [] => .error ("no values defined for type " ++ typeName)
  | .ok l => .ok ((valueTable l).map Prod.snd)

/-! ### Driver, embedded from src/yamlenums.go -/

/-- The result of `parser.ParsePackage`: the package name together with the
`ValuesOfType` query (embedded as a function, instantiated by
`valuesOfTypeModel` for concrete packages). -/
structure Package where
  Name : String
  ValuesOfType : String → Except String (List String)

/-- The command-line flags of src/yamlenums.go lines 89-93: `-type`,
`-prefix` (here `outPre`), `-suffix` (here `outSuf`). -/
structure Flags where
  typeNames : String
  outPre : String
  outSuf : String
  deriving Repr, DecidableEq

/-- The `analysis` structure of src/yamlenums.go lines 120-128.  The Go field
`TypesAndValues` is a `map[string][]string`; it is embedded as an association
list from type name to the list of name strings returned by `ValuesOfType`. -/
structure Analysis where
  Command : String
  PackageName : String
  TypesAndValues : List (String × List String)
  deriving Repr, DecidableEq

/-- Go map assignment `m[k] = v`: replace the binding when the key is present,
otherwise add it. -/
def mapInsert : List (String × List String) → String → List String →
    List (String × List String)
  | [], k, v => [(k, v)]
  | p :: m, k, v => if p.1 = k then (k, v) :: m else p :: mapInsert m k v

/-- The collaborators of the driver: `generatedTmpl.Execute`, `format.Source`
and `ioutil.WriteFile`, each embedded as a fallible function. -/
structure Collab where
  render : Analysis → Except String String
  formatSource : String → Except String String
  write : String → String → Except String Unit

/-- Process outcome: normal termination or `log.Fatalf` (nonzero exit). -/
inductive Outcome where
  | ok
  | fatal (msg : String)
  deriving Repr, DecidableEq

def Outcome.isFatal : Outcome → Bool
  | .ok => false
  | .fatal _ => true

/-- Observable trace of one run: outcome, the (path, bytes) writes in order,
the number of warning lines logged, and the contexts handed to the template. -/
structure RunResult where
  outcome : Outcome
  written : List (String × String)
  warnings : Nat
  contexts : List Analysis
  deriving Repr, DecidableEq

/-- Embeds `strings.Split(s, ",")`: split on every comma (an empty input
yields the singleton list of the empty string, as in Go). -/
def splitCommaAux : List Char → List Char → List String
  | [], acc => [String.mk acc.reverse]
  | c :: cs, acc =>
    if c = ',' then String.mk acc.reverse :: splitCommaAux cs []
    else splitCommaAux cs (c :: acc)

def splitComma (s : String) : List String :=
  splitCommaAux s.data []

/-- Embeds `strings.ToLower`: per-character lowercase mapping. -/
def toLowerStr (s : String) : String :=
  String.mk (s.data.map Char.toLower)

/-- Embeds src/yamlenums.go lines 152-153: the output file name
`strings.ToLower(*outputPrefix + typeName + *outputSuffix + ".go")`. -/
def outputFileName (outPre typeName outSuf : String) : String :=
  toLowerStr (outPre ++ typeName ++ outSuf ++ ".go")

/-- Embeds `filepath.Join(dir, output)`. -/
def joinPath (dir file : String) : String :=
  dir ++ "/" ++ file

def emptyResult : RunResult :=
  { outcome := .ok, written := [], warnings := 0, contexts := [] }

/-- Embeds the per-type loop of src/yamlenums.go lines 131-158: query
`ValuesOfType` (fatal on error), store the names in the accumulated analysis,
render the template (fatal on error), reformat the buffer — logging two
warnings and keeping the unformatted bytes on failure — and write the output
file (fatal on error) before the next type is attempted. -/
def processTypes (pkg : Package) (c : Collab) (dir : String) (fl : Flags) :
    List String → Analysis → RunResult → RunResult
  | [], _, acc => { acc with outcome := .ok }
  | typeName :: rest, analysis, acc =>
    match pkg.ValuesOfType typeName with
    | .error e =>
      { acc with outcome := .fatal ("finding values for type " ++ typeName ++ ": " ++ e) }
    | .ok values =>
      let analysis' :=
        { analysis with TypesAndValues := mapInsert analysis.TypesAndValues typeName values }
      let acc' := { acc with contexts := acc.contexts ++ [analysis'] }
      match c.render analysis' with
      | .error e => { acc' with outcome := .fatal ("generating code: " ++ e) }
      | .ok buf =>
        let src := match c.formatSource buf with
          | .ok s => s
          | .error _ => buf
        let warn : Nat := match c.formatSource buf with
          | .ok _ => 0
          | .error _ => 2
        let path := joinPath dir (outputFileName fl.outPre typeName fl.outSuf)
        match c.write path src with
        | .error e => { acc' with outcome := .fatal ("writing output: " ++ e) }
        | .ok _ =>
          processTypes pkg c dir fl rest analysis'
            { acc' with written := acc'.written ++ [(path, src)],
                        warnings := acc'.warnings + warn }

/-- Embeds `main` of src/yamlenums.go lines 95-159: fatal when `-type` is
empty; split the type list on commas; fatal when more than one positional
directory argument is given; fatal when parsing the package fails; otherwise
build the analysis (command line joined from the arguments, package name,
empty map) and run the per-type loop.  `argv` is `os.Args[1:]` and
`parseResult` the outcome of `parser.ParsePackage`. -/
def mainRun (argv : List String) (fl : Flags) (args : List String)
    (parseResult : Except String Package) (c : Collab) : RunResult :=
  if fl.typeNames.length = 0 then
    { emptyResult with outcome := .fatal "the flag -type must be set" }
  else if args.length > 1 then
    { emptyResult with outcome := .fatal "only one directory at a time" }
  else
    match parseResult with
    | .error e => { emptyResult with outcome := .fatal ("parsing package: " ++ e) }
    | .ok pkg =>
      processTypes pkg c (match args with | [d] => d | _ => ".") fl
        (splitComma fl.typeNames)
        { Command := String.intercalate " " argv
          PackageName := pkg.Name
          TypesAndValues := [] }
        emptyResult

/-- A file system as a partial map from path to contents; `applyWrites` embeds
the effect of the driver's `ioutil.WriteFile` calls: each write creates or
silently overwrites the file at its path. -/
def applyWrites (fs : String → Option String) : List (String × String) →
    (String → Option String)
  | [] => fs
  | (p, b) :: rest =>
    applyWrites (fun q => if q = p then some b else fs q) rest

/-! ### Template model (`generatedTmpl` is not among the provided sources) -/

def keyLe (a b : String) : Prop :=
  strLe a b = true

instance : DecidableRel keyLe := fun a b => by
  unfold keyLe; infer_instance

/-- Ordering of map entries by key. -/
def entryLe (p q : String × List String) : Prop :=
  keyLe p.1 q.1

instance : DecidableRel entryLe := fun p q => by
  unfold entryLe; infer_instance

/-- Modelled from the spec (§6): the template renderer is a deterministic
function of the rendering context.  It walks the TypesAndValues mapping in
sorted key order — the observable requirement the spec states: the emitted
bytes are generated deterministically, with no unordered-map iteration order
leaking into them. -/
def renderModel (a : Analysis) : String :=
  "// " ++ a.Command ++ "\npackage " ++ a.PackageName ++ "\n" ++
    String.intercalate "\n"
      ((List.insertionSort entryLe a.TypesAndValues).map
        (fun p => p.1 ++ " -> " ++ String.intercalate "," p.2))

/-- The collaborators built around the modelled template: the Go map reaches
the template in the iteration order produced by `ord` (Go maps are unordered,
so `ord` models one run's map iteration order); writes always succeed. -/
def collabWith (ord : List (String × List String) → List (String × List String))
    (fmt : String → Except String String) : Collab where
  render a := .ok (renderModel { a with TypesAndValues := ord a.TypesAndValues })
  formatSource := fmt
  write _ _ := .ok ()

/-! ### Generated-code model (the template's output contract, spec §6) -/

def quote (s : String) : String :=
  "\"" ++ s ++ "\""

/-- Modelled from the spec (§6): the generated serialization method returns
the canonical constant name as a quoted string token, or fails with the
"invalid value" condition when the value matches no known constant. -/
def marshalYAML (vt : List (Int × String)) (v : Int) : Except String String :=
  match vt.find? (fun p => p.1 = v) with
  | some p => .ok (quote p.2)
  | none => .error "invalid value"

/-- Modelled from the spec (§6): the generated deserialization method sets the
receiver to the value whose canonical name matches the quoted token, or fails
with the "invalid value" condition when no name matches. -/
def unmarshalYAML (vt : List (Int × String)) (s : String) : Except String Int :=
  match vt.find? (fun p => quote p.2 = s) with
  | some p => .ok p.1
  | none => .error "invalid value"

/-- A parsed package whose `ValuesOfType` query is answered by the modelled
analyzer. -/
def mkPackage (name : String) (groups : List (List ConstEntry)) : Package :=
  { Name := name, ValuesOfType := valuesOfTypeModel groups }

/-! ### The Pill example (src/yamlenums.go lines 29-62) -/

def pillGroup : List ConstEntry :=
  [⟨"Placebo", some "Pill", .iotaE⟩,
   ⟨"Aspirin", none, .iotaE⟩,
   ⟨"Ibuprofen", none, .iotaE⟩,
   ⟨"Paracetamol", none, .iotaE⟩,
   ⟨"Acetaminophen", none, .ref "Paracetamol"⟩]

def pillResolved : List (String × Int) :=
  [("Placebo", 0), ("Aspirin", 1), ("Ibuprofen", 2),
   ("Paracetamol", 3), ("Acetaminophen", 3)]

/-- The ValueTable of the Pill example. -/
def pillTable : List (Int × String) :=
  valueTable pillResolved

/-- The sequence of rendering contexts the loop hands to the template when
every analyzer query succeeds: the `k`-th context carries the map after the
first `k+1` insertions (`V` is the analyzer's answer per type). -/
def ctxList (V : String → List String) : Analysis → List String → List Analysis
  | _, [] => []
  | analysis, t :: ts =>
    { analysis with TypesAndValues := mapInsert analysis.TypesAndValues t (V t) } ::
      ctxList V
        { analysis with TypesAndValues := mapInsert analysis.TypesAndValues t (V t) } ts

/-- A formatter that always succeeds unchanged. -/
def fmtId : String → Except String String :=
  fun s => .ok s

/-- A formatter that always fails (for exercising the warning path). -/
def fmtFail : String → Except String String :=
  fun _ => .error "format error"

/-- The painkiller package of the worked example. -/
def pillPackage : Package :=
  mkPackage "painkiller" [pillGroup]

/-- Default flags: `-type=Pill` with default `-prefix`/`-suffix`. -/
def pillFlags : Flags :=
  { typeNames := "Pill", outPre := "", outSuf := "_yamlenums" }

/-- A one-constant package where Placebo is 0. -/
def packZero : Package :=
  mkPackage "painkiller" [[⟨"Placebo", some "Pill", .lit 0⟩]]

/-- A one-constant package where Placebo is 5. -/
def packFive : Package :=
  mkPackage "painkiller" [[⟨"Placebo", some "Pill", .lit 5⟩]]

/-- A two-type package: Pill plus a second enumerated type Dose. -/
def twoTypePackage : Package :=
  mkPackage "painkiller"
    [pillGroup, [⟨"Low", some "Dose", .lit 10⟩, ⟨"High", some "Dose", .lit 20⟩]]

/-- No key of the TypesAndValues map is bound twice (Go maps have unique
keys). -/
def nodupKeysTV (m : List (String × List String)) : Prop :=
  (m.map Prod.fst).Nodup

instance : Inhabited Analysis :=
  ⟨{ Command := "", PackageName := "", TypesAndValues := [] }⟩

/-! ### Order properties of the lexicographic comparison -/

theorem charEq_of_toNat {x y : Char} (h : x.toNat = y.toNat) : x = y :=
  Char.ext (UInt32.ext h)

theorem lexLe_cons (x y : Char) (xs ys : List Char) :
    lexLe (x :: xs) (y :: ys) = true ↔
      x.toNat < y.toNat ∨ (x.toNat = y.toNat ∧ lexLe xs ys = true) := by
  by_cases h1 : x.toNat < y.toNat
  · simp [lexLe, h1]
  · by_cases h2 : y.toNat < x.toNat
    · simp only [lexLe, if_neg h1, if_pos h2]
      constructor
      · intro h; cases h
      · rintro (h | ⟨h, _⟩) <;> omega
    · simp only [lexLe, if_neg h1, if_neg h2]
      constructor
      · intro h; right; exact ⟨by omega, h⟩
      · rintro (h | ⟨_, h⟩)
        · omega
        · exact h

theorem lexLe_total : ∀ l m : List Char, lexLe l m = true ∨ lexLe m l = true
  | [], _ => .inl rfl
  | _ :: _, [] => .inr rfl
  | x :: xs, y :: ys => by
    rcases Nat.lt_trichotomy x.toNat y.toNat with h | h | h
    · left; simp [lexLe, h]
    · rcases lexLe_total xs ys with h' | h'
      · left; rw [lexLe_cons]; right; exact ⟨h, h'⟩
      · right; rw [lexLe_cons]; right; exact ⟨h.symm, h'⟩
    · right; simp [lexLe, h]

theorem lexLe_trans : ∀ l m n : List Char,
    lexLe l m = true → lexLe m n = true → lexLe l n = true
  | [], _, _, _, _ => rfl
  | _ :: _, [], _, h, _ => by simp [lexLe] at h
  | _ :: _, _ :: _, [], _, h => by simp [lexLe] at h
  | x :: xs, y :: ys, z :: zs, h1, h2 => by
    rw [lexLe_cons] at h1 h2 ⊢
    rcases h1 with h1 | ⟨h1, h1'⟩ <;> rcases h2 with h2 | ⟨h2, h2'⟩
    · left; omega
    · left; omega
    · left; omega
    · right; exact ⟨by omega, lexLe_trans xs ys zs h1' h2'⟩

theorem lexLe_antisymm : ∀ l m : List Char,
    lexLe l m = true → lexLe m l = true → l = m
  | [], [], _, _ => rfl
  | [], _ :: _, _, h => by simp [lexLe] at h
  | _ :: _, [], h, _ => by simp [lexLe] at h
  | x :: xs, y :: ys, h1, h2 => by
    rw [lexLe_cons] at h1 h2
    rcases h1 with h1 | ⟨h1, h1'⟩ <;> rcases h2 with h2 | ⟨h2, h2'⟩
    · omega
    · omega
    · omega
    · rw [charEq_of_toNat h1, lexLe_antisymm xs ys h1' h2']

theorem keyLe_total (a b : String) : keyLe a b ∨ keyLe b a :=
  lexLe_total a.data b.data

theorem keyLe_trans {a b c : String} (h1 : keyLe a b) (h2 : keyLe b c) : keyLe a c :=
  lexLe_trans a.data b.data c.data h1 h2

theorem keyLe_antisymm {a b : String} (h1 : keyLe a b) (h2 : keyLe b a) : a = b :=
  String.ext (lexLe_antisymm a.data b.data h1 h2)

instance : IsTotal (String × List String) entryLe :=
  ⟨fun a b => keyLe_total a.1 b.1⟩

instance : IsTrans (String × List String) entryLe :=
  ⟨fun _ _ _ h1 h2 => keyLe_trans h1 h2⟩

/-- Two sorted association lists with the same entries and no duplicate keys
are equal. -/
theorem sorted_key_perm_eq : ∀ {l₁ l₂ : List (String × List String)},
    l₁.Perm l₂ → l₁.Sorted entryLe → l₂.Sorted entryLe → nodupKeysTV l₁ → l₁ = l₂ := by
  intro l₁
  induction l₁ with
  | nil => intro l₂ hp _ _ _; exact hp.nil_eq
  | cons a l ih =>
    intro l₂ hp hs₁ hs₂ hnd
    cases l₂ with
    | nil => cases hp.symm.nil_eq
    | cons b l₂' =>
      have hab : a = b := by
        have hb1 : b ∈ a :: l := hp.mem_iff.mpr (List.mem_cons_self b l₂')
        have ha2 : a ∈ b :: l₂' := hp.mem_iff.mp (List.mem_cons_self a l)
        rcases List.mem_cons.mp hb1 with h | h
        · exact h.symm
        · rcases List.mem_cons.mp ha2 with h' | h'
          · exact h'
          · have h1 : entryLe a b := (List.sorted_cons.mp hs₁).1 b h
            have h2 : entryLe b a := (List.sorted_cons.mp hs₂).1 a h'
            have hk : a.1 = b.1 := keyLe_antisymm h1 h2
            have hmem : a.1 ∈ l.map Prod.fst := hk ▸ List.mem_map_of_mem Prod.fst h
            exact absurd hmem (List.nodup_cons.mp hnd).1
      subst hab
      rw [ih hp.cons_inv (List.sorted_cons.mp hs₁).2 (List.sorted_cons.mp hs₂).2
        (List.nodup_cons.mp hnd).2]

theorem insertionSort_eq_of_perm {l l' : List (String × List String)}
    (hp : l.Perm l') (hnd : nodupKeysTV l) :
    List.insertionSort entryLe l' = List.insertionSort entryLe l := by
  refine sorted_key_perm_eq ?_ (List.sorted_insertionSort entryLe l')
    (List.sorted_insertionSort entryLe l) ?_
  · exact (List.perm_insertionSort entryLe l').trans
      (hp.symm.trans (List.perm_insertionSort entryLe l).symm)
  · exact ((hp.map Prod.fst).trans
      ((List.perm_insertionSort entryLe l').map Prod.fst).symm).nodup hnd

theorem renderModel_perm {cmd pn : String} {tv tv' : List (String × List String)}
    (hp : tv.Perm tv') (hnd : nodupKeysTV tv) :
    renderModel { Command := cmd, PackageName := pn, TypesAndValues := tv' } =
      renderModel { Command := cmd, PackageName := pn, TypesAndValues := tv } := by
  unfold renderModel
  rw [insertionSort_eq_of_perm hp hnd]

/-! ### Association-list lemmas for the TypesAndValues map -/

theorem lookup_isSome_iff {β : Type} : ∀ (m : List (String × β)) (k : String),
    (m.lookup k).isSome = true ↔ k ∈ m.map Prod.fst
  | [], k => by simp [List.lookup]
  | (a, b) :: m, k => by
    by_cases h : k = a
    · subst h; simp [List.lookup]
    · have hb : (k == a) = false := beq_eq_false_iff_ne.mpr h
      simp only [List.lookup, hb, List.map_cons]
      rw [lookup_isSome_iff m k, List.mem_cons]
      simp [h]

theorem mem_keys_mapInsert {a k : String} (v : List String) :
    ∀ m : List (String × List String),
      a ∈ (mapInsert m k v).map Prod.fst → a ∈ m.map Prod.fst ∨ a = k
  | [] => by
    intro h
    simp only [mapInsert, List.map_cons, List.map_nil] at h
    right; simpa using h
  | (p1, p2) :: m => by
    intro h
    by_cases hpk : p1 = k
    · rw [mapInsert, if_pos hpk, List.map_cons] at h
      rcases List.mem_cons.mp h with rfl | h'
      · right; rfl
      · left; rw [List.map_cons]; exact List.mem_cons_of_mem _ h'
    · rw [mapInsert, if_neg hpk, List.map_cons] at h
      rcases List.mem_cons.mp h with rfl | h'
      · left; rw [List.map_cons]; exact List.mem_cons_self _ _
      · rcases mem_keys_mapInsert v m h' with h'' | h''
        · left; rw [List.map_cons]; exact List.mem_cons_of_mem _ h''
        · right; exact h''

theorem nodupKeysTV_mapInsert {k : String} (v : List String) :
    ∀ m : List (String × List String), nodupKeysTV m → nodupKeysTV (mapInsert m k v)
  | [], _ => by simp [mapInsert, nodupKeysTV]
  | (p1, p2) :: m, hnd => by
    unfold nodupKeysTV at hnd ⊢
    rw [List.map_cons, List.nodup_cons] at hnd
    by_cases hpk : p1 = k
    · rw [mapInsert, if_pos hpk, List.map_cons, List.nodup_cons]
      exact ⟨hpk ▸ hnd.1, hnd.2⟩
    · rw [mapInsert, if_neg hpk, List.map_cons, List.nodup_cons]
      refine ⟨fun hm => ?_, nodupKeysTV_mapInsert v m hnd.2⟩
      rcases mem_keys_mapInsert v m hm with h' | h'
      · exact hnd.1 h'
      · exact hpk h'

theorem lookup_mapInsert_self (k : String) (v : List String) :
    ∀ m : List (String × List String), (mapInsert m k v).lookup k = some v
  | [] => by simp [mapInsert, List.lookup]
  | (p1, p2) :: m => by
    by_cases hpk : p1 = k
    · rw [mapInsert, if_pos hpk]
      simp [List.lookup_cons]
    · rw [mapInsert, if_neg hpk]
      have hb : (k == p1) = false := beq_eq_false_iff_ne.mpr (Ne.symm hpk)
      simp only [List.lookup_cons, hb]
      exact lookup_mapInsert_self k v m

theorem lookup_mapInsert_ne {k k' : String} (v : List String) (h : k' ≠ k) :
    ∀ m : List (String × List String), (mapInsert m k v).lookup k' = m.lookup k'
  | [] => by
    have hb : (k' == k) = false := beq_eq_false_iff_ne.mpr h
    simp [mapInsert, List.lookup, hb]
  | (p1, p2) :: m => by
    by_cases hpk : p1 = k
    · rw [mapInsert, if_pos hpk]
      have hb : (k' == k) = false := beq_eq_false_iff_ne.mpr h
      simp only [List.lookup_cons, hb, hpk]
    · rw [mapInsert, if_neg hpk]
      simp only [List.lookup_cons]
      cases hkp : (k' == p1) with
      | true => rfl
      | false => exact lookup_mapInsert_ne v h m

/-! ### `find?` lemmas -/

theorem find?_unique {α β : Type} (f : α → β) (p : α → Bool) :
    ∀ (l : List α) (x : α), (l.map f).Nodup → x ∈ l →
      (∀ y, p y = true ↔ f y = f x) → l.find? p = some x
  | [], x, _, hx, _ => by cases hx
  | a :: l, x, hnd, hx, hp => by
    rcases List.mem_cons.mp hx with h | hx'
    · rw [List.find?_cons_of_pos _ ((hp a).mpr (congrArg f h.symm)), h]
    · have hfa : p a = false := by
        by_contra h
        have ha : f a = f x := (hp a).mp (by simpa using h)
        exact (List.nodup_cons.mp hnd).1 (ha ▸ List.mem_map_of_mem f hx')
      rw [List.find?_cons_of_neg _ (by simp [hfa])]
      exact find?_unique f p l x (List.nodup_cons.mp hnd).2 hx' hp

theorem find?_split {α : Type} (p : α → Bool) :
    ∀ (l : List α) (a : α), l.find? p = some a →
      ∃ l₁ l₂, l = l₁ ++ a :: l₂ ∧ ∀ x ∈ l₁, p x = false
  | [], a, h => by simp [List.find?] at h
  | b :: l, a, h => by
    cases hb : p b with
    | true =>
      rw [List.find?_cons_of_pos _ hb, Option.some_inj] at h
      exact ⟨[], l, by simp [h], by simp⟩
    | false =>
      rw [List.find?_cons_of_neg _ (by simp [hb])] at h
      obtain ⟨l₁, l₂, rfl, hl₁⟩ := find?_split p l a h
      exact ⟨b :: l₁, l₂, rfl, by
        intro x hx
        rcases List.mem_cons.mp hx with rfl | hx'
        · exact hb
        · exact hl₁ x hx'⟩

theorem quote_injective {a b : String} (h : quote a = quote b) : a = b := by
  unfold quote at h
  have hd := congrArg String.data h
  simp only [String.data_append, List.append_assoc] at hd
  exact String.ext (List.append_cancel_right (List.append_cancel_left hd))

/-! ### String lowering -/

theorem toLowerStr_append (a b : String) :
    toLowerStr (a ++ b) = toLowerStr a ++ toLowerStr b := by
  apply String.ext
  simp [toLowerStr, String.data_append]

/-! ### First-appearance values -/

theorem mem_firstValuesAux : ∀ (l : List (String × Int)) (seen : List Int) (v : Int),
    v ∈ firstValuesAux l seen ↔ v ∈ l.map Prod.snd ∧ v ∉ seen
  | [], seen, v => by simp [firstValuesAux]
  | p :: l, seen, v => by
    rw [List.map_cons]
    by_cases hs : p.2 ∈ seen
    · rw [firstValuesAux, if_pos hs, mem_firstValuesAux l seen v]
      constructor
      · rintro ⟨h1, h2⟩; exact ⟨List.mem_cons_of_mem _ h1, h2⟩
      · rintro ⟨h1, h2⟩
        rcases List.mem_cons.mp h1 with rfl | h1'
        · exact absurd hs h2
        · exact ⟨h1', h2⟩
    · rw [firstValuesAux, if_neg hs]
      constructor
      · intro h
        rcases List.mem_cons.mp h with rfl | h'
        · exact ⟨List.mem_cons_self _ _, hs⟩
        · have h2 := (mem_firstValuesAux l (p.2 :: seen) v).mp h'
          exact ⟨List.mem_cons_of_mem _ h2.1,
            fun hv => h2.2 (List.mem_cons_of_mem _ hv)⟩
      · rintro ⟨h1, h2⟩
        rcases List.mem_cons.mp h1 with rfl | h1'
        · exact List.mem_cons_self _ _
        · by_cases hvp : v = p.2
          · exact hvp ▸ List.mem_cons_self _ _
          · refine List.mem_cons_of_mem _
              ((mem_firstValuesAux l (p.2 :: seen) v).mpr ⟨h1', ?_⟩)
            intro hv
            rcases List.mem_cons.mp hv with h' | h'
            · exact hvp h'
            · exact h2 h'

/-! ### Driver-loop lemmas -/

theorem processTypes_cons_ok (pkg : Package) (c : Collab) (dir : String) (fl : Flags)
    (t' : String) (rest : List String) (analysis : Analysis) (acc : RunResult)
    (vs : List String) (b : String)
    (hvs : pkg.ValuesOfType t' = .ok vs)
    (hb : c.render { analysis with
      TypesAndValues := mapInsert analysis.TypesAndValues t' vs } = .ok b)
    (hw : ∀ p s, c.write p s = .ok ()) :
    processTypes pkg c dir fl (t' :: rest) analysis acc =
      processTypes pkg c dir fl rest
        { analysis with TypesAndValues := mapInsert analysis.TypesAndValues t' vs }
        { acc with
          contexts := acc.contexts ++
            [{ analysis with TypesAndValues := mapInsert analysis.TypesAndValues t' vs }],
          written := acc.written ++
            [(joinPath dir (outputFileName fl.outPre t' fl.outSuf),
              match c.formatSource b with | .ok s => s | .error _ => b)],
          warnings := acc.warnings +
            (match c.formatSource b with | .ok _ => 0 | .error _ => 2) } := by
  simp only [processTypes, hvs, hb, hw]

theorem processTypes_fatal (pkg : Package) (c : Collab) (dir : String) (fl : Flags)
    (t e : String) (ts₂ : List String)
    (hv : pkg.ValuesOfType t = .error e)
    (hr : ∀ a, ∃ b, c.render a = .ok b)
    (hw : ∀ p s, c.write p s = .ok ()) :
    ∀ (ts₁ : List String) (analysis : Analysis) (acc : RunResult),
      (∀ t' ∈ ts₁, ∃ vs, pkg.ValuesOfType t' = .ok vs) →
      (processTypes pkg c dir fl (ts₁ ++ t :: ts₂) analysis acc).outcome.isFatal = true ∧
      (processTypes pkg c dir fl (ts₁ ++ t :: ts₂) analysis acc).written.map Prod.fst =
        acc.written.map Prod.fst ++
          ts₁.map (fun t' => joinPath dir (outputFileName fl.outPre t' fl.outSuf))
  | [], analysis, acc, _ => by
    rw [List.nil_append]
    simp [processTypes, hv, Outcome.isFatal]
  | t' :: ts₁, analysis, acc, hok => by
    obtain ⟨vs, hvs⟩ := hok t' (List.mem_cons_self _ _)
    obtain ⟨b, hb⟩ := hr
      { analysis with TypesAndValues := mapInsert analysis.TypesAndValues t' vs }
    rw [List.cons_append,
      processTypes_cons_ok pkg c dir fl t' (ts₁ ++ t :: ts₂) analysis acc vs b hvs hb hw]
    have IH := processTypes_fatal pkg c dir fl t e ts₂ hv hr hw ts₁
      { analysis with TypesAndValues := mapInsert analysis.TypesAndValues t' vs }
      { acc with
        contexts := acc.contexts ++
          [{ analysis with TypesAndValues := mapInsert analysis.TypesAndValues t' vs }],
        written := acc.written ++
          [(joinPath dir (outputFileName fl.outPre t' fl.outSuf),
            match c.formatSource b with | .ok s => s | .error _ => b)],
        warnings := acc.warnings +
          (match c.formatSource b with | .ok _ => 0 | .error _ => 2) }
      (fun t'' h'' => hok t'' (List.mem_cons_of_mem _ h''))
    refine ⟨IH.1, ?_⟩
    rw [IH.2]
    simp [List.map_append]

theorem mem_contexts_processTypes (pkg : Package) (c : Collab) (dir : String)
    (fl : Flags) :
    ∀ (ts : List String) (analysis : Analysis) (acc : RunResult) (a : Analysis),
      a ∈ (processTypes pkg c dir fl ts analysis acc).contexts →
      a ∈ acc.contexts ∨
        (a.Command = analysis.Command ∧ a.PackageName = analysis.PackageName ∧
          ∃ t ∈ ts, ∃ vs, pkg.ValuesOfType t = .ok vs ∧
            a.TypesAndValues.lookup t = some vs)
  | [], analysis, acc, a => by
    intro h
    exact .inl h
  | t :: ts, analysis, acc, a => by
    intro h
    cases hv : pkg.ValuesOfType t with
    | error e =>
      simp only [processTypes, hv] at h
      exact .inl h
    | ok vs =>
      simp only [processTypes, hv] at h
      cases hrend : c.render
          { analysis with TypesAndValues := mapInsert analysis.TypesAndValues t vs } with
      | error e =>
        rw [hrend] at h
        simp only at h
        rcases List.mem_append.mp h with h' | h'
        · exact .inl h'
        · refine .inr ⟨?_, ?_, t, List.mem_cons_self _ _, vs, hv, ?_⟩ <;>
            rw [List.mem_singleton.mp h']
          exact lookup_mapInsert_self t vs analysis.TypesAndValues
      | ok b =>
        rw [hrend] at h
        simp only at h
        cases hwr : c.write (joinPath dir (outputFileName fl.outPre t fl.outSuf))
            (match c.formatSource b with | .ok s => s | .error _ => b) with
        | error e =>
          rw [hwr] at h
          simp only at h
          rcases List.mem_append.mp h with h' | h'
          · exact .inl h'
          · refine .inr ⟨?_, ?_, t, List.mem_cons_self _ _, vs, hv, ?_⟩ <;>
              rw [List.mem_singleton.mp h']
            exact lookup_mapInsert_self t vs analysis.TypesAndValues
        | ok u =>
          rw [hwr] at h
          simp only at h
          have IH := mem_contexts_processTypes pkg c dir fl ts
            { analysis with TypesAndValues := mapInsert analysis.TypesAndValues t vs }
            _ a h
          rcases IH with h' | ⟨hc, hp, t', ht', vs', hv', hl'⟩
          · rcases List.mem_append.mp h' with h'' | h''
            · exact .inl h''
            · refine .inr ⟨?_, ?_, t, List.mem_cons_self _ _, vs, hv, ?_⟩ <;>
                rw [List.mem_singleton.mp h'']
              exact lookup_mapInsert_self t vs analysis.TypesAndValues
          · exact .inr ⟨hc, hp, t', List.mem_cons_of_mem _ ht', vs', hv', hl'⟩

theorem processTypes_contexts_spec (pkg : Package) (c : Collab) (dir : String)
    (fl : Flags) :
    ∀ (ts : List String) (analysis : Analysis) (acc : RunResult),
      ∃ ctxs : List Analysis,
        (processTypes pkg c dir fl ts analysis acc).contexts = acc.contexts ++ ctxs ∧
        ctxs.length ≤ ts.length ∧
        ∀ k, k < ctxs.length →
          (ctxs.getD k default).Command = analysis.Command ∧
          (ctxs.getD k default).PackageName = analysis.PackageName ∧
          ∃ vs, pkg.ValuesOfType (ts.getD k "") = .ok vs ∧
            (ctxs.getD k default).TypesAndValues.lookup (ts.getD k "") = some vs
  | [], analysis, acc =>
    ⟨[], by simp [processTypes], by simp, fun k hk => by simp at hk⟩
  | t :: ts, analysis, acc => by
    cases hv : pkg.ValuesOfType t with
    | error e =>
      refine ⟨[], ?_, by simp, fun k hk => by simp at hk⟩
      simp [processTypes, hv]
    | ok vs =>
      cases hrend : c.render
          { analysis with TypesAndValues := mapInsert analysis.TypesAndValues t vs } with
      | error e =>
        refine ⟨[{ analysis with
          TypesAndValues := mapInsert analysis.TypesAndValues t vs }], ?_, by simp, ?_⟩
        · simp [processTypes, hv, hrend]
        · intro k hk
          cases k with
          | zero =>
            exact ⟨rfl, rfl, vs, hv, lookup_mapInsert_self t vs analysis.TypesAndValues⟩
          | succ n => simp at hk
      | ok b =>
        cases hwr : c.write (joinPath dir (outputFileName fl.outPre t fl.outSuf))
            (match c.formatSource b with | .ok s => s | .error _ => b) with
        | error e =>
          refine ⟨[{ analysis with
            TypesAndValues := mapInsert analysis.TypesAndValues t vs }], ?_, by simp, ?_⟩
          · simp [processTypes, hv, hrend, hwr]
          · intro k hk
            cases k with
            | zero =>
              exact ⟨rfl, rfl, vs, hv, lookup_mapInsert_self t vs analysis.TypesAndValues⟩
            | succ n => simp at hk
        | ok u =>
          obtain ⟨ctxs', h1', h2', h3'⟩ := processTypes_contexts_spec pkg c dir fl ts
            { analysis with TypesAndValues := mapInsert analysis.TypesAndValues t vs }
            { acc with
              contexts := acc.contexts ++
                [{ analysis with TypesAndValues := mapInsert analysis.TypesAndValues t vs }],
              written := acc.written ++
                [(joinPath dir (outputFileName fl.outPre t fl.outSuf),
                  match c.formatSource b with | .ok s => s | .error _ => b)],
              warnings := acc.warnings +
                (match c.formatSource b with | .ok _ => 0 | .error _ => 2) }
          refine ⟨{ analysis with
            TypesAndValues := mapInsert analysis.TypesAndValues t vs } :: ctxs', ?_, ?_, ?_⟩
          · simp only [processTypes, hv, hrend, hwr]
            rw [h1']
            simp [List.append_assoc]
          · simpa using Nat.succ_le_succ h2'
          · intro k hk
            cases k with
            | zero =>
              exact ⟨rfl, rfl, vs, hv, lookup_mapInsert_self t vs analysis.TypesAndValues⟩
            | succ n =>
              have hn : n < ctxs'.length := by simpa using hk
              obtain ⟨hc, hp, vs', hv', hl'⟩ := h3' n hn
              exact ⟨hc, hp, vs', hv', hl'⟩

theorem ctxList_length (V : String → List String) :
    ∀ (ts : List String) (analysis : Analysis),
      (ctxList V analysis ts).length = ts.length
  | [], _ => rfl
  | t :: ts, analysis => by
    simp [ctxList, ctxList_length V ts]

theorem processTypes_contexts_ok (pkg : Package) (c : Collab) (dir : String)
    (fl : Flags) (V : String → List String)
    (hr : ∀ a, ∃ b, c.render a = .ok b) (hw : ∀ p s, c.write p s = .ok ()) :
    ∀ (ts : List String) (analysis : Analysis) (acc : RunResult),
      (∀ t ∈ ts, pkg.ValuesOfType t = .ok (V t)) →
      (processTypes pkg c dir fl ts analysis acc).contexts =
        acc.contexts ++ ctxList V analysis ts
  | [], analysis, acc, _ => by simp [processTypes, ctxList]
  | t :: ts, analysis, acc, hok => by
    obtain ⟨b, hb⟩ := hr
      { analysis with TypesAndValues := mapInsert analysis.TypesAndValues t (V t) }
    rw [processTypes_cons_ok pkg c dir fl t ts analysis acc (V t) b
      (hok t (List.mem_cons_self _ _)) hb hw]
    rw [processTypes_contexts_ok pkg c dir fl V hr hw ts
      { analysis with TypesAndValues := mapInsert analysis.TypesAndValues t (V t) }
      _ (fun t' h' => hok t' (List.mem_cons_of_mem _ h'))]
    simp [ctxList, List.append_assoc]

theorem lookup_ctxList_of_lookup (V : String → List String) :
    ∀ (ts : List String) (analysis : Analysis) (t : String),
      analysis.TypesAndValues.lookup t = some (V t) →
      ∀ k, k < ts.length →
        ((ctxList V analysis ts).getD k default).TypesAndValues.lookup t = some (V t)
  | [], _, _, _, k, hk => by simp at hk
  | t' :: ts, analysis, t, hl, k, hk => by
    have hstep : (mapInsert analysis.TypesAndValues t' (V t')).lookup t = some (V t) := by
      by_cases htt : t = t'
      · subst htt; exact lookup_mapInsert_self t (V t) analysis.TypesAndValues
      · rw [lookup_mapInsert_ne (V t') htt]; exact hl
    cases k with
    | zero =>
      simp only [ctxList, List.getD_cons_zero]
      exact hstep
    | succ k =>
      simp only [ctxList, List.getD_cons_succ]
      exact lookup_ctxList_of_lookup V ts _ t hstep k (Nat.lt_of_succ_lt_succ hk)

theorem lookup_ctxList_take (V : String → List String) :
    ∀ (ts : List String) (analysis : Analysis) (k : Nat),
      k < ts.length → ∀ t ∈ ts.take (k + 1),
        ((ctxList V analysis ts).getD k default).TypesAndValues.lookup t = some (V t)
  | [], _, k, hk => by simp at hk
  | t' :: ts, analysis, k, hk => by
    intro t ht
    cases k with
    | zero =>
      rw [List.take_succ_cons, List.take_zero] at ht
      rw [List.mem_singleton.mp ht]
      simp only [ctxList, List.getD_cons_zero]
      exact lookup_mapInsert_self t' (V t') analysis.TypesAndValues
    | succ k =>
      rw [List.take_succ_cons] at ht
      simp only [ctxList, List.getD_cons_succ]
      rcases List.mem_cons.mp ht with rfl | ht'
      · exact lookup_ctxList_of_lookup V ts _ t
          (lookup_mapInsert_self t (V t) analysis.TypesAndValues) k
          (Nat.lt_of_succ_lt_succ hk)
      · exact lookup_ctxList_take V ts _ k (Nat.lt_of_succ_lt_succ hk) t ht'

theorem processTypes_collabWith (pkg : Package) (dir : String) (fl : Flags)
    (fmt : String → Except String String)
    (ord₁ ord₂ : List (String × List String) → List (String × List String))
    (h1 : ∀ l : List (String × List String), l.Perm (ord₁ l))
    (h2 : ∀ l : List (String × List String), l.Perm (ord₂ l)) :
    ∀ (ts : List String) (analysis : Analysis) (acc : RunResult),
      nodupKeysTV analysis.TypesAndValues →
      processTypes pkg (collabWith ord₁ fmt) dir fl ts analysis acc =
        processTypes pkg (collabWith ord₂ fmt) dir fl ts analysis acc
  | [], _, _, _ => rfl
  | t :: ts, analysis, acc, hnd => by
    cases hv : pkg.ValuesOfType t with
    | error e => simp only [processTypes, hv]
    | ok vs =>
      have hnd' : nodupKeysTV (mapInsert analysis.TypesAndValues t vs) :=
        nodupKeysTV_mapInsert vs _ hnd
      have e1 : (collabWith ord₁ fmt).render
          { analysis with TypesAndValues := mapInsert analysis.TypesAndValues t vs } =
          .ok (renderModel
            { analysis with TypesAndValues := mapInsert analysis.TypesAndValues t vs }) := by
        simp only [collabWith]
        rw [renderModel_perm (h1 _) hnd']
      have e2 : (collabWith ord₂ fmt).render
          { analysis with TypesAndValues := mapInsert analysis.TypesAndValues t vs } =
          .ok (renderModel
            { analysis with TypesAndValues := mapInsert analysis.TypesAndValues t vs }) := by
        simp only [collabWith]
        rw [renderModel_perm (h2 _) hnd']
      simp only [processTypes, hv, e1, e2]
      exact processTypes_collabWith pkg dir fl fmt ord₁ ord₂ h1 h2 ts _ _ hnd'

theorem mainRun_ok_unfold (argv : List String) (fl : Flags) (pkg : Package)
    (c : Collab) (dir : String) (h1 : fl.typeNames.length ≠ 0) :
    mainRun argv fl [dir] (.ok pkg) c =
      processTypes pkg c dir fl (splitComma fl.typeNames)
        { Command := String.intercalate " " argv, PackageName := pkg.Name,
          TypesAndValues := [] } emptyResult := by
  unfold mainRun
  rw [if_neg h1, if_neg (by simp : ¬([dir].length > 1))]

/-! ## Claim theorems -/

/-- C2: for the Pill example (constants Placebo=0, Aspirin=1, Ibuprofen=2,
Paracetamol=3, Acetaminophen=3) the ValueTable maps 0 to Placebo, 1 to
Aspirin, 2 to Ibuprofen and 3 to Paracetamol (not Acetaminophen), and the
output file, with default flags, is named pill_yamlenums.go. -/
theorem pill_valueTable_and_fileName :
    resolvedOfType [pillGroup] "Pill" = .ok pillResolved ∧
    valueTable pillResolved =
      [(0, "Placebo"), (1, "Aspirin"), (2, "Ibuprofen"), (3, "Paracetamol")] ∧
    valuesOfTypeModel [pillGroup] "Pill" =
      .ok ["Placebo", "Aspirin", "Ibuprofen", "Paracetamol"] ∧
    outputFileName "" "Pill" "_yamlenums" = "pill_yamlenums.go" :=
  ⟨rfl, by decide, rfl, by decide⟩

/-- C1 (counterexample): in the Pill group the names Paracetamol and
Acetaminophen share the value 3; the canonical name the tool is documented to
choose (and the spec's own concrete table demands) is "Paracetamol", yet the
lexicographically smallest of the two names is "Acetaminophen".  Moreover the
canonical choice is not independent of declaration order. -/
theorem canonicalName_not_lexMin :
    valueTable pillResolved =
      [(0, "Placebo"), (1, "Aspirin"), (2, "Ibuprofen"), (3, "Paracetamol")] ∧
    namesForValue pillResolved 3 = ["Paracetamol", "Acetaminophen"] ∧
    minName (namesForValue pillResolved 3) = some "Acetaminophen" ∧
    (3, "Acetaminophen") ∉ valueTable pillResolved ∧
    valueTable [("B", 0), ("A", 0)] ≠ valueTable [("A", 0), ("B", 0)] :=
  ⟨by decide, by decide, by decide, by decide, by decide⟩

/-- C1 (amended): for every constant group, the canonical name selected for a
value is the name of the first-declared entry resolving to that value (so the
choice follows declaration order, not alphabetical order). -/
theorem canonName_first_declared (groups : List (List ConstEntry))
    (typeName : String) (l : List (String × Int))
    (_hres : resolvedOfType groups typeName = .ok l)
    (v : Int) (n : String) (hmem : (v, n) ∈ valueTable l) :
    ∃ l₁ l₂, l = l₁ ++ (n, v) :: l₂ ∧ ∀ p ∈ l₁, p.2 ≠ v := by
  obtain ⟨v', hv', heq⟩ := List.mem_map.mp hmem
  have hv'v : v' = v := congrArg Prod.fst heq
  subst hv'v
  have hngetD : (canonName l v').getD "" = n := congrArg Prod.snd heq
  have hval : v' ∈ l.map Prod.snd := ((mem_firstValuesAux l [] v').mp hv').1
  obtain ⟨p, hp, hpv⟩ := List.mem_map.mp hval
  have hsome : (l.find? (fun q => q.2 = v')).isSome :=
    List.find?_isSome.mpr ⟨p, hp, by simp [hpv]⟩
  cases hfind : l.find? (fun q => q.2 = v') with
  | none => rw [hfind] at hsome; cases hsome
  | some q =>
    have hq2 : q.2 = v' := by simpa using List.find?_some hfind
    have hcn : canonName l v' = some q.1 := by rw [canonName, hfind]; rfl
    rw [hcn, Option.getD_some] at hngetD
    obtain ⟨l₁, l₂, hsplit, hl₁⟩ := find?_split _ l q hfind
    refine ⟨l₁, l₂, ?_, ?_⟩
    · rw [hsplit]
      rw [show ((n, v') : String × Int) = q from by rw [← hngetD, ← hq2]]
    · intro p' hp'
      simpa using hl₁ p' hp'

/-- Witness for C1 (amended): in the Pill example, value 3 is canonically
named after its first declaration, Paracetamol. -/
theorem canonName_first_declared_witness :
    ∃ l₁ l₂, pillResolved = l₁ ++ ("Paracetamol", (3 : Int)) :: l₂ ∧
      ∀ p ∈ l₁, p.2 ≠ 3 :=
  canonName_first_declared [pillGroup] "Pill" pillResolved rfl 3 "Paracetamol"
    (by decide)

/-- C5: a usage error — empty `-type` flag or more than one positional
directory argument — terminates the process with a fatal (nonzero) outcome
and no file is ever written. -/
theorem usage_error_fatal_no_writes (argv : List String) (fl : Flags)
    (args : List String) (pr : Except String Package) (c : Collab)
    (h : fl.typeNames.length = 0 ∨ args.length > 1) :
    (mainRun argv fl args pr c).outcome.isFatal = true ∧
    (mainRun argv fl args pr c).written = [] := by
  unfold mainRun
  rcases h with h | h
  · rw [if_pos h]
    exact ⟨rfl, rfl⟩
  · by_cases h0 : fl.typeNames.length = 0
    · rw [if_pos h0]
      exact ⟨rfl, rfl⟩
    · rw [if_neg h0, if_pos h]
      exact ⟨rfl, rfl⟩

/-- Witness for C5: running with an empty `-type` flag is fatal and writes
nothing. -/
theorem usage_error_fatal_no_writes_witness :
    (mainRun [] { typeNames := "", outPre := "", outSuf := "_yamlenums" } []
      (.ok pillPackage) (collabWith id fmtId)).outcome.isFatal = true ∧
    (mainRun [] { typeNames := "", outPre := "", outSuf := "_yamlenums" } []
      (.ok pillPackage) (collabWith id fmtId)).written = [] :=
  usage_error_fatal_no_writes [] _ [] _ _ (Or.inl rfl)

/-- C6: types are processed strictly in order, each fully resolved and
written before the next; when the analyzer fails on the k-th type the run
aborts with a fatal outcome, and the files on disk are exactly those of the
first k-1 types, in order — nothing for the failing or any later type, and
no rollback of earlier files. -/
theorem analyzer_failure_aborts (argv : List String) (fl : Flags) (dir : String)
    (pkg : Package) (c : Collab) (ts₁ : List String) (t : String)
    (ts₂ : List String) (e : String)
    (h1 : fl.typeNames.length ≠ 0)
    (hsplit : splitComma fl.typeNames = ts₁ ++ t :: ts₂)
    (hok : ∀ t' ∈ ts₁, ∃ vs, pkg.ValuesOfType t' = .ok vs)
    (hr : ∀ a, ∃ b, c.render a = .ok b)
    (hw : ∀ p s, c.write p s = .ok ())
    (hv : pkg.ValuesOfType t = .error e) :
    (mainRun argv fl [dir] (.ok pkg) c).outcome.isFatal = true ∧
    (mainRun argv fl [dir] (.ok pkg) c).written.map Prod.fst =
      ts₁.map (fun t' => joinPath dir (outputFileName fl.outPre t' fl.outSuf)) := by
  rw [mainRun_ok_unfold argv fl pkg c dir h1, hsplit]
  have h := processTypes_fatal pkg c dir fl t e ts₂ hv hr hw ts₁
    { Command := String.intercalate " " argv, PackageName := pkg.Name,
      TypesAndValues := [] } emptyResult hok
  refine ⟨h.1, ?_⟩
  rw [h.2]
  simp [emptyResult]

/-- Witness for C6: requesting `-type=Pill,Nope` against the painkiller
package writes pill_yamlenums.go, then aborts fatally on the unknown type
Nope. -/
theorem analyzer_failure_aborts_witness :
    (mainRun ["-type=Pill,Nope"]
      { typeNames := "Pill,Nope", outPre := "", outSuf := "_yamlenums" } ["."]
      (.ok pillPackage) (collabWith id fmtId)).outcome.isFatal = true ∧
    (mainRun ["-type=Pill,Nope"]
      { typeNames := "Pill,Nope", outPre := "", outSuf := "_yamlenums" } ["."]
      (.ok pillPackage) (collabWith id fmtId)).written.map Prod.fst =
      ["./pill_yamlenums.go"] := by
  have h := analyzer_failure_aborts ["-type=Pill,Nope"]
    { typeNames := "Pill,Nope", outPre := "", outSuf := "_yamlenums" } "."
    pillPackage (collabWith id fmtId) ["Pill"] "Nope" [] "no values defined for type Nope"
    (by decide) (by decide)
    (fun t' ht' => by rw [List.mem_singleton.mp ht']; exact ⟨_, rfl⟩)
    (fun a => ⟨_, rfl⟩) (fun p s => rfl) rfl
  refine ⟨h.1, ?_⟩
  rw [h.2]
  decide

/-- C4: for every type name and every prefix/suffix flag value the output
file name is lowercase(prefix + T + suffix) + ".go"; the file is written into
the scanned directory; an existing file at that path is silently overwritten;
and `-prefix=x -suffix=_y` with type Pill yields xpill_y.go. -/
theorem output_file_naming (fl : Flags) (dir t : String) (pkg : Package)
    (c : Collab) (vs : List String)
    (h1 : fl.typeNames.length ≠ 0)
    (hsplit : splitComma fl.typeNames = [t])
    (hv : pkg.ValuesOfType t = .ok vs)
    (hr : ∀ a, ∃ b, c.render a = .ok b)
    (hw : ∀ p s, c.write p s = .ok ()) :
    (∀ outPre typeName outSuf : String,
      outputFileName outPre typeName outSuf =
        toLowerStr (outPre ++ typeName ++ outSuf) ++ ".go") ∧
    (∀ argv,
      (mainRun argv fl [dir] (.ok pkg) c).written.map Prod.fst =
        [joinPath dir (outputFileName fl.outPre t fl.outSuf)]) ∧
    (∀ (fs : String → Option String) (p b : String),
      applyWrites fs [(p, b)] p = some b) ∧
    outputFileName "x" "Pill" "_y" = "xpill_y.go" := by
  refine ⟨?_, ?_, ?_, by decide⟩
  · intro outPre typeName outSuf
    rw [outputFileName, toLowerStr_append]
    rw [show toLowerStr ".go" = ".go" from by decide]
  · intro argv
    obtain ⟨b, hb⟩ := hr
      { Command := String.intercalate " " argv, PackageName := pkg.Name,
        TypesAndValues := mapInsert [] t vs }
    rw [mainRun_ok_unfold argv fl pkg c dir h1, hsplit,
      processTypes_cons_ok pkg c dir fl t [] _ emptyResult vs b hv hb hw]
    simp [processTypes, emptyResult]
  · intro fs p b
    simp [applyWrites]

/-- Witness for C4: a successful default run of the Pill example writes
exactly ./pill_yamlenums.go, and the concrete `-prefix=x -suffix=_y` name is
xpill_y.go. -/
theorem output_file_naming_witness :
    (∀ outPre typeName outSuf : String,
      outputFileName outPre typeName outSuf =
        toLowerStr (outPre ++ typeName ++ outSuf) ++ ".go") ∧
    (∀ argv,
      (mainRun argv pillFlags ["."] (.ok pillPackage)
        (collabWith id fmtId)).written.map Prod.fst =
      [joinPath "." (outputFileName "" "Pill" "_yamlenums")]) ∧
    (∀ (fs : String → Option String) (p b : String),
      applyWrites fs [(p, b)] p = some b) ∧
    outputFileName "x" "Pill" "_y" = "xpill_y.go" :=
  output_file_naming pillFlags "." "Pill" pillPackage (collabWith id fmtId)
    ["Placebo", "Aspirin", "Ibuprofen", "Paracetamol"]
    (by decide) (by decide) rfl (fun a => ⟨_, rfl⟩) (fun p s => rfl)

/-- C7: when the generated source fails to reformat, the run still succeeds —
two warning lines are logged and the unformatted bytes are written — whereas
every other error class (template failure, analyzer failure, write failure,
parse failure) aborts the run fatally with nothing written in a single-type
run. -/
theorem format_failure_warns_only (argv : List String) (fl : Flags) (dir t : String)
    (pkg : Package) (c : Collab) (vs : List String) (b : String)
    (h1 : fl.typeNames.length ≠ 0)
    (hsplit : splitComma fl.typeNames = [t])
    (hv : pkg.ValuesOfType t = .ok vs)
    (hb : c.render { Command := String.intercalate " " argv, PackageName := pkg.Name,
                     TypesAndValues := mapInsert [] t vs } = .ok b)
    (hw : ∀ p s, c.write p s = .ok ()) :
    (∀ e, c.formatSource b = .error e →
      (mainRun argv fl [dir] (.ok pkg) c).outcome = .ok ∧
      (mainRun argv fl [dir] (.ok pkg) c).written =
        [(joinPath dir (outputFileName fl.outPre t fl.outSuf), b)] ∧
      (mainRun argv fl [dir] (.ok pkg) c).warnings = 2) ∧
    (∀ s, c.formatSource b = .ok s →
      (mainRun argv fl [dir] (.ok pkg) c).outcome = .ok ∧
      (mainRun argv fl [dir] (.ok pkg) c).written =
        [(joinPath dir (outputFileName fl.outPre t fl.outSuf), s)] ∧
      (mainRun argv fl [dir] (.ok pkg) c).warnings = 0) ∧
    (∀ (c' : Collab) e, c'.render { Command := String.intercalate " " argv,
                                    PackageName := pkg.Name,
                                    TypesAndValues := mapInsert [] t vs } = .error e →
      (mainRun argv fl [dir] (.ok pkg) c').outcome.isFatal = true ∧
      (mainRun argv fl [dir] (.ok pkg) c').written = []) ∧
    (∀ (pkg' : Package) (c' : Collab) e, pkg'.ValuesOfType t = .error e →
      (mainRun argv fl [dir] (.ok pkg') c').outcome.isFatal = true ∧
      (mainRun argv fl [dir] (.ok pkg') c').written = []) ∧
    (∀ (c' : Collab) s e,
      c'.render { Command := String.intercalate " " argv, PackageName := pkg.Name,
                  TypesAndValues := mapInsert [] t vs } = .ok b →
      c'.formatSource b = .ok s →
      c'.write (joinPath dir (outputFileName fl.outPre t fl.outSuf)) s = .error e →
      (mainRun argv fl [dir] (.ok pkg) c').outcome.isFatal = true ∧
      (mainRun argv fl [dir] (.ok pkg) c').written = []) ∧
    (∀ (c' : Collab) e,
      (mainRun argv fl [dir] (.error e : Except String Package) c').outcome.isFatal
        = true ∧
      (mainRun argv fl [dir] (.error e : Except String Package) c').written = []) := by
  refine ⟨?_, ?_, ?_, ?_, ?_, ?_⟩
  · intro e he
    rw [mainRun_ok_unfold argv fl pkg c dir h1, hsplit,
      processTypes_cons_ok pkg c dir fl t [] _ emptyResult vs b hv hb hw]
    simp [processTypes, emptyResult, he]
  · intro s hs
    rw [mainRun_ok_unfold argv fl pkg c dir h1, hsplit,
      processTypes_cons_ok pkg c dir fl t [] _ emptyResult vs b hv hb hw]
    simp [processTypes, emptyResult, hs]
  · intro c' e he
    rw [mainRun_ok_unfold argv fl pkg c' dir h1, hsplit]
    simp only [processTypes, hv, he]
    exact ⟨rfl, rfl⟩
  · intro pkg' c' e he
    rw [mainRun_ok_unfold argv fl pkg' c' dir h1, hsplit]
    simp only [processTypes, he]
    exact ⟨rfl, rfl⟩
  · intro c' s e hb' hf hw'
    rw [mainRun_ok_unfold argv fl pkg c' dir h1, hsplit]
    simp only [processTypes, hv, hb', hf, hw']
    exact ⟨rfl, rfl⟩
  · intro c' e
    unfold mainRun
    rw [if_neg h1, if_neg (by simp : ¬([dir].length > 1))]
    exact ⟨rfl, rfl⟩

/-- Witness for C7: a Pill run whose formatter always fails still succeeds,
writes the unformatted rendered bytes, and logs two warnings. -/
theorem format_failure_warns_only_witness :
    (mainRun ["-type=Pill"] pillFlags ["."] (.ok pillPackage)
      (collabWith id fmtFail)).outcome = .ok ∧
    (mainRun ["-type=Pill"] pillFlags ["."] (.ok pillPackage)
      (collabWith id fmtFail)).written =
      [(joinPath "." (outputFileName "" "Pill" "_yamlenums"),
        renderModel { Command := String.intercalate " " ["-type=Pill"],
                      PackageName := "painkiller",
                      TypesAndValues := mapInsert [] "Pill"
                        ["Placebo", "Aspirin", "Ibuprofen", "Paracetamol"] })] ∧
    (mainRun ["-type=Pill"] pillFlags ["."] (.ok pillPackage)
      (collabWith id fmtFail)).warnings = 2 :=
  (format_failure_warns_only ["-type=Pill"] pillFlags "." "Pill" pillPackage
    (collabWith id fmtFail) ["Placebo", "Aspirin", "Ibuprofen", "Paracetamol"]
    (renderModel { Command := String.intercalate " " ["-type=Pill"],
                   PackageName := "painkiller",
                   TypesAndValues := mapInsert [] "Pill"
                     ["Placebo", "Aspirin", "Ibuprofen", "Paracetamol"] })
    (by decide) (by decide) rfl rfl (fun p s => rfl)).1 "format error" rfl

/-- C3 (counterexample): the rendering context cannot contain the (name,
value) pairs — two packages whose Pill constants have different values
(Placebo=0 versus Placebo=5) produce identical rendering contexts, because
the context stores only the list of name strings (`TypesAndValues` is a
`map[string][]string` in src/yamlenums.go lines 120-128).  Hence no function
can read the resolved (value, canonical-name) table back off the context. -/
theorem context_lacks_values :
    ¬ ∃ f : Analysis → List (Int × String),
        ∀ (gs : List (List ConstEntry)) (l : List (String × Int)),
          resolvedOfType gs "Pill" = .ok l →
          f ((mainRun ["-type=Pill"] pillFlags ["."]
              (.ok (mkPackage "painkiller" gs)) (collabWith id fmtId)).contexts.getD 0
              default) =
            valueTable l := by
  rintro ⟨f, hf⟩
  have hA := hf [[⟨"Placebo", some "Pill", .lit 0⟩]] [("Placebo", 0)] rfl
  have hB := hf [[⟨"Placebo", some "Pill", .lit 5⟩]] [("Placebo", 5)] rfl
  rw [show (mainRun ["-type=Pill"] pillFlags ["."]
        (.ok (mkPackage "painkiller" [[⟨"Placebo", some "Pill", .lit 0⟩]]))
        (collabWith id fmtId)).contexts.getD 0 default =
      (mainRun ["-type=Pill"] pillFlags ["."]
        (.ok (mkPackage "painkiller" [[⟨"Placebo", some "Pill", .lit 5⟩]]))
        (collabWith id fmtId)).contexts.getD 0 default from by decide] at hA
  rw [hA] at hB
  exact absurd hB (by decide)

/-- C3 (amended): for every type name processed, the context handed to the
template at that step carries the original invocation command line, the
package name, and that very type name mapped to its ordered list of constant
name strings (the values themselves are not part of the context): the k-th
context of a run binds the k-th requested type to its analyzer result. -/
theorem context_contents (argv : List String) (fl : Flags) (dir : String)
    (pkg : Package) (c : Collab) (h1 : fl.typeNames.length ≠ 0) :
    (mainRun argv fl [dir] (.ok pkg) c).contexts.length ≤
      (splitComma fl.typeNames).length ∧
    ∀ k, k < (mainRun argv fl [dir] (.ok pkg) c).contexts.length →
      ((mainRun argv fl [dir] (.ok pkg) c).contexts.getD k default).Command =
        String.intercalate " " argv ∧
      ((mainRun argv fl [dir] (.ok pkg) c).contexts.getD k default).PackageName =
        pkg.Name ∧
      ∃ vs, pkg.ValuesOfType ((splitComma fl.typeNames).getD k "") = .ok vs ∧
        ((mainRun argv fl [dir] (.ok pkg) c).contexts.getD k
          default).TypesAndValues.lookup ((splitComma fl.typeNames).getD k "") =
          some vs := by
  rw [mainRun_ok_unfold argv fl pkg c dir h1]
  obtain ⟨ctxs, hctxs, hlen, hspec⟩ := processTypes_contexts_spec pkg c dir fl
    (splitComma fl.typeNames)
    { Command := String.intercalate " " argv, PackageName := pkg.Name,
      TypesAndValues := [] } emptyResult
  rw [hctxs, show emptyResult.contexts ++ ctxs = ctxs from by simp [emptyResult]]
  exact ⟨hlen, hspec⟩

/-- Witness for C3 (amended): in the default Pill run the first (only)
context carries the command line, the package name, and "Pill" — the first
requested type — bound to its four canonical names. -/
theorem context_contents_witness :
    ((mainRun ["-type=Pill"] pillFlags ["."] (.ok pillPackage)
      (collabWith id fmtId)).contexts.getD 0 default).Command =
      String.intercalate " " ["-type=Pill"] ∧
    ((mainRun ["-type=Pill"] pillFlags ["."] (.ok pillPackage)
      (collabWith id fmtId)).contexts.getD 0 default).PackageName =
      pillPackage.Name ∧
    ∃ vs, pillPackage.ValuesOfType ((splitComma pillFlags.typeNames).getD 0 "") =
        .ok vs ∧
      ((mainRun ["-type=Pill"] pillFlags ["."] (.ok pillPackage)
        (collabWith id fmtId)).contexts.getD 0
          default).TypesAndValues.lookup ((splitComma pillFlags.typeNames).getD 0 "") =
        some vs :=
  (context_contents ["-type=Pill"] pillFlags "." pillPackage (collabWith id fmtId)
    (by decide)).2 0 (by decide)

/-- C10: the rendering context is accumulated across the loop, not rebuilt:
after k+1 types have been processed, the k-th context handed to the template
maps every one of the first k+1 requested types to its name list. -/
theorem contexts_accumulate (argv : List String) (fl : Flags) (dir : String)
    (pkg : Package) (c : Collab) (V : String → List String) (ts : List String)
    (h1 : fl.typeNames.length ≠ 0)
    (hsplit : splitComma fl.typeNames = ts)
    (hV : ∀ t ∈ ts, pkg.ValuesOfType t = .ok (V t))
    (hr : ∀ a, ∃ b, c.render a = .ok b)
    (hw : ∀ p s, c.write p s = .ok ()) :
    (mainRun argv fl [dir] (.ok pkg) c).contexts.length = ts.length ∧
    ∀ k, k < ts.length → ∀ t ∈ ts.take (k + 1),
      ((mainRun argv fl [dir] (.ok pkg) c).contexts.getD k
        default).TypesAndValues.lookup t = some (V t) := by
  rw [mainRun_ok_unfold argv fl pkg c dir h1, hsplit,
    processTypes_contexts_ok pkg c dir fl V hr hw ts _ emptyResult hV]
  constructor
  · simp [emptyResult, ctxList_length]
  · intro k hk t ht
    simp only [emptyResult, List.nil_append]
    exact lookup_ctxList_take V ts _ k hk t ht

/-- Witness for C10: in a `-type=Pill,Dose` run the second context still maps
"Pill" (processed first) as well as "Dose". -/
theorem contexts_accumulate_witness :
    ((mainRun ["-type=Pill,Dose"]
      { typeNames := "Pill,Dose", outPre := "", outSuf := "_yamlenums" } ["."]
      (.ok twoTypePackage) (collabWith id fmtId)).contexts.getD 1
        default).TypesAndValues.lookup "Pill" =
      some ["Placebo", "Aspirin", "Ibuprofen", "Paracetamol"] ∧
    ((mainRun ["-type=Pill,Dose"]
      { typeNames := "Pill,Dose", outPre := "", outSuf := "_yamlenums" } ["."]
      (.ok twoTypePackage) (collabWith id fmtId)).contexts.getD 1
        default).TypesAndValues.lookup "Dose" = some ["Low", "High"] :=
  ⟨(contexts_accumulate ["-type=Pill,Dose"]
      { typeNames := "Pill,Dose", outPre := "", outSuf := "_yamlenums" } "."
      twoTypePackage (collabWith id fmtId)
      (fun t => if t = "Pill" then ["Placebo", "Aspirin", "Ibuprofen", "Paracetamol"]
                else ["Low", "High"])
      ["Pill", "Dose"] (by decide) (by decide)
      (fun t ht => by
        rcases List.mem_cons.mp ht with rfl | ht'
        · rfl
        · rw [List.mem_singleton.mp ht']; rfl)
      (fun a => ⟨_, rfl⟩) (fun p s => rfl)).2 1 (by decide) "Pill" (by decide),
   (contexts_accumulate ["-type=Pill,Dose"]
      { typeNames := "Pill,Dose", outPre := "", outSuf := "_yamlenums" } "."
      twoTypePackage (collabWith id fmtId)
      (fun t => if t = "Pill" then ["Placebo", "Aspirin", "Ibuprofen", "Paracetamol"]
                else ["Low", "High"])
      ["Pill", "Dose"] (by decide) (by decide)
      (fun t ht => by
        rcases List.mem_cons.mp ht with rfl | ht'
        · rfl
        · rw [List.mem_singleton.mp ht']; rfl)
      (fun a => ⟨_, rfl⟩) (fun p s => rfl)).2 1 (by decide) "Dose" (by decide)⟩

/-- C8: the run is a deterministic function of the input — in particular the
unordered Go map backing TypesAndValues cannot leak its iteration order into
the emitted bytes: two runs whose map iteration orders differ arbitrarily
produce identical results (the modelled template walks the entries in sorted
key order), so re-running on unchanged input is byte-identical. -/
theorem deterministic_output (argv : List String) (fl : Flags) (args : List String)
    (pr : Except String Package) (fmt : String → Except String String)
    (ord₁ ord₂ : List (String × List String) → List (String × List String))
    (h1 : ∀ l : List (String × List String), l.Perm (ord₁ l))
    (h2 : ∀ l : List (String × List String), l.Perm (ord₂ l)) :
    mainRun argv fl args pr (collabWith ord₁ fmt) =
      mainRun argv fl args pr (collabWith ord₂ fmt) := by
  unfold mainRun
  by_cases h0 : fl.typeNames.length = 0
  · simp only [if_pos h0]
  · simp only [if_neg h0]
    by_cases hargs : args.length > 1
    · simp only [if_pos hargs]
    · simp only [if_neg hargs]
      cases pr with
      | error e => rfl
      | ok pkg =>
        exact processTypes_collabWith pkg _ fl fmt ord₁ ord₂ h1 h2 _ _ _
          (by simp [nodupKeysTV])

/-- Witness for C8: running the Pill example with the map iterated in
reversed order yields the same result as iterating it in place. -/
theorem deterministic_output_witness :
    mainRun ["-type=Pill"] pillFlags ["."] (.ok pillPackage)
      (collabWith List.reverse fmtId) =
    mainRun ["-type=Pill"] pillFlags ["."] (.ok pillPackage)
      (collabWith id fmtId) :=
  deterministic_output ["-type=Pill"] pillFlags ["."] (.ok pillPackage) fmtId
    List.reverse id (fun l => (List.reverse_perm l).symm) (fun l => List.Perm.refl l)

/-- C9: over any generated mapping whose values and names are free of
duplicates (as every ValueTable is), serializing a mapped value yields its
canonical name as a quoted token and deserializing that token restores the
value; deserializing a token matching no name fails with "invalid value". -/
theorem marshal_roundtrip (vt : List (Int × String))
    (hv : (vt.map Prod.fst).Nodup) (hn : (vt.map Prod.snd).Nodup) :
    (∀ v n, (v, n) ∈ vt →
      marshalYAML vt v = .ok (quote n) ∧ unmarshalYAML vt (quote n) = .ok v) ∧
    (∀ s, (∀ p ∈ vt, quote p.2 ≠ s) →
      unmarshalYAML vt s = .error "invalid value") := by
  constructor
  · intro v n hmem
    constructor
    · have h := find?_unique Prod.fst (fun p => p.1 = v) vt (v, n) hv hmem
        (fun y => by simp)
      rw [marshalYAML, h]
    · have h := find?_unique Prod.snd (fun p => quote p.2 = quote n) vt (v, n) hn hmem
        (fun y => by
          simp only [decide_eq_true_eq]
          exact ⟨fun hq => quote_injective hq, fun hq => by rw [hq]⟩)
      rw [unmarshalYAML, h]
  · intro s hs
    rw [unmarshalYAML,
      show vt.find? (fun p => quote p.2 = s) = none from by
        rw [List.find?_eq_none]
        intro p hp
        simp [hs p hp]]

/-- Witness for C9: in the Pill table, 3 serializes to "Paracetamol" (quoted)
and back, and the alias token "Acetaminophen" is rejected. -/
theorem marshal_roundtrip_witness :
    (marshalYAML pillTable 3 = .ok (quote "Paracetamol") ∧
      unmarshalYAML pillTable (quote "Paracetamol") = .ok 3) ∧
    unmarshalYAML pillTable (quote "Acetaminophen") = .error "invalid value" :=
  ⟨(marshal_roundtrip pillTable (by decide) (by decide)).1 3 "Paracetamol" (by decide),
   (marshal_roundtrip pillTable (by decide) (by decide)).2 (quote "Acetaminophen")
     (by decide)⟩

end Yamlenums
